import Mathlib

/-!
Shallow embedding of `prewitt_operator` from `Prewitt_Edge_Detector.ipynb`.

The source is a single Python function operating on a 2D numpy array of
real-valued grayscale samples.  We model an image as a `Grid`: explicit
`rows`/`cols` dimensions together with a total valuation `ℕ → ℕ → ℝ`
(the function is only ever consulted at in-range indices by the code).
Floating-point arithmetic is idealised as real arithmetic, with `np.sqrt`
modelled as `Real.sqrt`.

The call `cv2.GaussianBlur(img, (3,3), cv2.BORDER_DEFAULT)` is an external
library call (cv2 is not part of this repository); the embedding takes the
blur as an explicit function parameter `blur : Grid → Grid`, so every
theorem quantifying over the smoothing configuration holds for an arbitrary
behaviour of that collaborator.
-/

namespace Prewitt

/-- A 2D image buffer: `rows × cols` real-valued samples.  `val i j` is the
sample at row `i`, column `j`; indices outside the rectangle are never read
by the embedded code. -/
@[ext]
structure Grid where
  rows : ℕ
  cols : ℕ
  val : ℕ → ℕ → ℝ

/-- The `P_x` kernel `prewitt_x = [[1,0,-1],[1,0,-1],[1,0,-1]]` from the source. -/
def prewitt_x : ℕ → ℕ → ℝ
  | 0, 0 => 1 | 0, 1 => 0 | 0, 2 => -1
  | 1, 0 => 1 | 1, 1 => 0 | 1, 2 => -1
  | 2, 0 => 1 | 2, 1 => 0 | 2, 2 => -1
  | _, _ => 0

/-- The `P_y` kernel `prewitt_y = [[1,1,1],[0,0,0],[-1,-1,-1]]` from the source. -/
def prewitt_y : ℕ → ℕ → ℝ
  | 0, 0 => 1 | 0, 1 => 1 | 0, 2 => 1
  | 1, 0 => 0 | 1, 1 => 0 | 1, 2 => 0
  | 2, 0 => -1 | 2, 1 => -1 | 2, 2 => -1
  | _, _ => 0

/-- The `G_x` accumulation of the source, transcribed term by term:
`img[i-1,j-1]*px[0,0] + img[i,j-1]*px[0,1] + img[i+1,j-1]*px[0,2] + ...`. -/
def G_x (img : ℕ → ℕ → ℝ) (i j : ℕ) : ℝ :=
  (img (i-1) (j-1) * prewitt_x 0 0) + (img i (j-1) * prewitt_x 0 1) + (img (i+1) (j-1) * prewitt_x 0 2)
  + (img (i-1) j * prewitt_x 1 0) + (img i j * prewitt_x 1 1) + (img (i+1) j * prewitt_x 1 2)
  + (img (i-1) (j+1) * prewitt_x 2 0) + (img i (j+1) * prewitt_x 2 1) + (img (i+1) (j+1) * prewitt_x 2 2)

/-- The `G_y` accumulation of the source, transcribed term by term. -/
def G_y (img : ℕ → ℕ → ℝ) (i j : ℕ) : ℝ :=
  (img (i-1) (j-1) * prewitt_y 0 0) + (img i (j-1) * prewitt_y 0 1) + (img (i+1) (j-1) * prewitt_y 0 2)
  + (img (i-1) j * prewitt_y 1 0) + (img i j * prewitt_y 1 1) + (img (i+1) j * prewitt_y 1 2)
  + (img (i-1) (j+1) * prewitt_y 2 0) + (img i (j+1) * prewitt_y 2 1) + (img (i+1) (j+1) * prewitt_y 2 2)

/-- `G_mag = np.sqrt(G_x ** 2 + G_y ** 2)` from the source. -/
noncomputable def G_mag (img : ℕ → ℕ → ℝ) (i j : ℕ) : ℝ :=
  Real.sqrt (G_x img i j ^ 2 + G_y img i j ^ 2)

/-- Predicate: `(i, j)` is visited by the pixel loop `for i in range(1,
rows-1): for j in range(1, cols-1)` of the source (natural-number
subtraction makes both ranges empty whenever `rows ≤ 2` or `cols ≤ 2`,
matching Python's empty `range`). -/
def interior (rows cols i j : ℕ) : Prop :=
  1 ≤ i ∧ i < rows - 1 ∧ 1 ≤ j ∧ j < cols - 1

instance (rows cols i j : ℕ) : Decidable (interior rows cols i j) := by
  unfold interior; infer_instance

/-- The function `prewitt_operator(img, threshold=40, smooth=True)` of the
source.  `edge_img = np.zeros((rows, cols))` with `rows, cols = img.shape`
taken before smoothing; if `smooth`, the local name `img` is rebound to the
blurred copy; the loop writes `if G_mag < threshold: G_mag = 0;
edge_img[i,j] = G_mag` at each interior pixel exactly once, so the result
grid holds the thresholded magnitude at loop-visited cells and the initial
zero elsewhere. -/
noncomputable def prewitt_operator (img : Grid) (threshold : ℝ) (smooth : Bool)
    (blur : Grid → Grid) : Grid :=
  let rows := img.rows
  let cols := img.cols
  let input := if smooth then blur img else img
  { rows := rows
    cols := cols
    val := fun i j =>
      if interior rows cols i j then
        let m := G_mag input.val i j
        if m < threshold then 0 else m
      else 0 }

/-- Spec-side definition (follows the spec's words, for refinement
comparison): `Σ K[u][v] * neighborhood[u][v]` for `u, v ∈ {0,1,2}`, where
the neighborhood centered at `(i,j)` is read row-major,
`neighborhood[u][v] = input[i-1+u][j-1+v]`. -/
def specConv (K : ℕ → ℕ → ℝ) (img : ℕ → ℕ → ℝ) (i j : ℕ) : ℝ :=
  ∑ u in Finset.range 3, ∑ v in Finset.range 3, K u v * img (i - 1 + u) (j - 1 + v)

/-- The index pattern the source actually computes: kernel entry `(u,v)`
multiplies `img[i-1+v, j-1+u]` — the transposed neighborhood. -/
def transConv (K : ℕ → ℕ → ℝ) (img : ℕ → ℕ → ℝ) (i j : ℕ) : ℝ :=
  ∑ u in Finset.range 3, ∑ v in Finset.range 3, K u v * img (i - 1 + v) (j - 1 + u)

/-- State-passing embedding of one call `prewitt_operator(A, t, s)` that
threads the caller's array `A` through the body.  Every statement of the
source either reads `A` (`img.shape`, the neighborhood loads), allocates a
fresh array (`np.zeros`; `cv2.GaussianBlur` called without a `dst` argument
returns a new array, and `img = cv2.GaussianBlur(...)` rebinds the local
name only), or stores into the locally allocated `edge_img`; no statement
stores into `A`, so the caller's array after the call is `A` itself.
Returns the function result paired with the caller's array after the call. -/
noncomputable def prewitt_operator_call (A : Grid) (t : ℝ) (s : Bool)
    (blur : Grid → Grid) : Grid × Grid :=
  let rows := A.rows
  let cols := A.cols
  let img := if s then blur A else A
  let edge_img : Grid :=
    ⟨rows, cols, fun i j =>
      if interior rows cols i j then
        let m := G_mag img.val i j
        if m < t then 0 else m
      else 0⟩
  (edge_img, A)

/-- Concrete 3×3 test image used by witnesses: row 0 is `[3,0,0]`, row 1 is
`[1,0,0]`, row 2 is `[0,0,0]`.  At the single interior pixel `(1,1)` the
source computes `G_x = 3`, `G_y = 4`, `G_mag = 5`. -/
def tgVal (i j : ℕ) : ℝ :=
  if i = 0 ∧ j = 0 then 3 else if i = 1 ∧ j = 0 then 1 else 0

/-- The concrete 3×3 witness grid. -/
def tg : Grid := ⟨3, 3, tgVal⟩

/-- A degenerate 2×2 grid (no interior pixel) used by witnesses. -/
def g22 : Grid := ⟨2, 2, fun _ _ => 7⟩

/-- The output value at a loop-visited pixel is the thresholded magnitude of
the (possibly blurred) input. -/
lemma prewitt_val_of_interior (img : Grid) (t : ℝ) (s : Bool) (blur : Grid → Grid)
    {i j : ℕ} (h : interior img.rows img.cols i j) :
    (prewitt_operator img t s blur).val i j =
      if G_mag (if s then blur img else img).val i j < t then 0
      else G_mag (if s then blur img else img).val i j := by
  simp only [prewitt_operator, if_pos h]

/-- The output value at a pixel the loop never visits is the `np.zeros`
initial value. -/
lemma prewitt_val_of_not_interior (img : Grid) (t : ℝ) (s : Bool) (blur : Grid → Grid)
    {i j : ℕ} (h : ¬ interior img.rows img.cols i j) :
    (prewitt_operator img t s blur).val i j = 0 := by
  simp only [prewitt_operator, if_neg h]

/-- Magnitudes are non-negative: `G_mag` is a square root. -/
lemma G_mag_nonneg (img : ℕ → ℕ → ℝ) (i j : ℕ) : 0 ≤ G_mag img i j :=
  Real.sqrt_nonneg _

/-- The source's `G_x` accumulation equals the row-major spec convolution of
the `P_y` kernel. -/
lemma G_x_eq_specConv_y (img : ℕ → ℕ → ℝ) (i j : ℕ) (hi : 1 ≤ i) (hj : 1 ≤ j) :
    G_x img i j = specConv prewitt_y img i j := by
  obtain ⟨a, rfl⟩ : ∃ a, i = a + 1 := ⟨i - 1, by omega⟩
  obtain ⟨b, rfl⟩ : ∃ b, j = b + 1 := ⟨j - 1, by omega⟩
  simp only [G_x, specConv, Finset.sum_range_succ, Finset.sum_range_zero,
    Nat.add_sub_cancel, prewitt_x, prewitt_y]
  norm_num
  ring_nf

/-- The source's `G_y` accumulation equals the row-major spec convolution of
the `P_x` kernel. -/
lemma G_y_eq_specConv_x (img : ℕ → ℕ → ℝ) (i j : ℕ) (hi : 1 ≤ i) (hj : 1 ≤ j) :
    G_y img i j = specConv prewitt_x img i j := by
  obtain ⟨a, rfl⟩ : ∃ a, i = a + 1 := ⟨i - 1, by omega⟩
  obtain ⟨b, rfl⟩ : ∃ b, j = b + 1 := ⟨j - 1, by omega⟩
  simp only [G_y, specConv, Finset.sum_range_succ, Finset.sum_range_zero,
    Nat.add_sub_cancel, prewitt_x, prewitt_y]
  norm_num
  ring_nf

/-- The magnitude the source computes equals the magnitude of the row-major
spec convolutions (sum of squares is symmetric in its two terms). -/
lemma G_mag_eq_spec (img : ℕ → ℕ → ℝ) (i j : ℕ) (hi : 1 ≤ i) (hj : 1 ≤ j) :
    G_mag img i j =
      Real.sqrt (specConv prewitt_x img i j ^ 2 + specConv prewitt_y img i j ^ 2) := by
  rw [G_mag, G_x_eq_specConv_y img i j hi hj, G_y_eq_specConv_x img i j hi hj, add_comm]

/-- On a constant image the `G_x` accumulation vanishes. -/
lemma G_x_const (c : ℝ) (i j : ℕ) : G_x (fun _ _ => c) i j = 0 := by
  simp only [G_x, prewitt_x]
  ring

/-- On a constant image the `G_y` accumulation vanishes. -/
lemma G_y_const (c : ℝ) (i j : ℕ) : G_y (fun _ _ => c) i j = 0 := by
  simp only [G_y, prewitt_y]
  ring

/-- Concrete evaluation: at the interior pixel of `tg` the source computes
`G_x = 3`. -/
lemma tg_G_x : G_x tgVal 1 1 = 3 := by
  norm_num [G_x, tgVal, prewitt_x]

/-- Concrete evaluation: at the interior pixel of `tg` the source computes
`G_y = 4`. -/
lemma tg_G_y : G_y tgVal 1 1 = 4 := by
  norm_num [G_y, tgVal, prewitt_y]

/-- Concrete evaluation: at the interior pixel of `tg` the magnitude is
`√(3² + 4²) = 5`. -/
lemma tg_G_mag : G_mag tgVal 1 1 = 5 := by
  rw [G_mag, tg_G_x, tg_G_y]
  rw [show (3:ℝ) ^ 2 + 4 ^ 2 = 5 ^ 2 by norm_num]
  exact Real.sqrt_sq (by norm_num)

/-- C1: for every grid with at least 3 rows and columns, every threshold
`t ≥ 0` and every interior pixel `(i,j)` with `1 ≤ i ≤ rows-2`,
`1 ≤ j ≤ cols-2`, the output of `prewitt_operator` with `smooth = false` at
`(i,j)` equals `Gmag = √(Gx² + Gy²)` for the row-major spec convolutions
`Gx = Σ Kx[u][v]·input[i-1+u][j-1+v]`, `Gy` likewise with `Ky`, with `Gmag`
replaced by `0` when `Gmag < t`. -/
theorem C1_interior_pixel_magnitude (img : Grid) (blur : Grid → Grid) (t : ℝ) (i j : ℕ)
    (hr : 3 ≤ img.rows) (hc : 3 ≤ img.cols) (ht : 0 ≤ t)
    (hi1 : 1 ≤ i) (hi2 : i ≤ img.rows - 2) (hj1 : 1 ≤ j) (hj2 : j ≤ img.cols - 2) :
    (prewitt_operator img t false blur).val i j =
      if Real.sqrt (specConv prewitt_x img.val i j ^ 2 + specConv prewitt_y img.val i j ^ 2) < t
      then 0
      else Real.sqrt (specConv prewitt_x img.val i j ^ 2 + specConv prewitt_y img.val i j ^ 2) := by
  have hint : interior img.rows img.cols i j := by
    refine ⟨hi1, by omega, hj1, by omega⟩
  rw [prewitt_val_of_interior img t false blur hint]
  simp only [Bool.false_eq_true, if_false]
  rw [G_mag_eq_spec img.val i j hi1 hj1]

/-- Witness for C1 at the concrete grid `tg`, threshold `2`, pixel `(1,1)`. -/
theorem C1_witness :
    3 ≤ tg.rows ∧ 3 ≤ tg.cols ∧ (0:ℝ) ≤ 2 ∧ 1 ≤ 1 ∧ 1 ≤ tg.rows - 2 ∧ 1 ≤ 1 ∧ 1 ≤ tg.cols - 2 ∧
    (prewitt_operator tg 2 false id).val 1 1 =
      (if Real.sqrt (specConv prewitt_x tg.val 1 1 ^ 2 + specConv prewitt_y tg.val 1 1 ^ 2) < 2
       then 0
       else Real.sqrt (specConv prewitt_x tg.val 1 1 ^ 2 + specConv prewitt_y tg.val 1 1 ^ 2)) :=
  ⟨by norm_num [tg], by norm_num [tg], by norm_num, le_refl 1, by norm_num [tg],
   le_refl 1, by norm_num [tg],
   C1_interior_pixel_magnitude tg id 2 1 1 (by norm_num [tg]) (by norm_num [tg]) (by norm_num)
     (le_refl 1) (by norm_num [tg]) (le_refl 1) (by norm_num [tg])⟩

/-- C2 counterexample: with the negative threshold `-1` the function does
not fail fast — it runs the pixel loop and returns an output grid whose
interior pixel holds the computed magnitude `5`.  There is no raising path
in the source for any threshold value. -/
theorem C2_counterexample :
    (prewitt_operator tg (-1) false id).val 1 1 = 5 := by
  have hint : interior tg.rows tg.cols 1 1 := by
    constructor <;> norm_num [tg]
  rw [prewitt_val_of_interior tg (-1) false id hint]
  simp only [Bool.false_eq_true, if_false]
  rw [show tg.val = tgVal from rfl, tg_G_mag]
  norm_num

/-- C2 amended: a negative threshold is not rejected; `prewitt_operator`
runs normally and, because every computed magnitude is a non-negative
square root, a negative threshold suppresses nothing — the result equals
the result with threshold `0`. -/
theorem C2_negative_threshold_not_rejected (img : Grid) (blur : Grid → Grid) (s : Bool)
    (t : ℝ) (ht : t < 0) :
    prewitt_operator img t s blur = prewitt_operator img 0 s blur := by
  ext i j
  · rfl
  · rfl
  · by_cases h : interior img.rows img.cols i j
    · rw [prewitt_val_of_interior img t s blur h, prewitt_val_of_interior img 0 s blur h]
      have hm : 0 ≤ G_mag (if s then blur img else img).val i j := G_mag_nonneg _ i j
      have h1 : ¬ (G_mag (if s then blur img else img).val i j < t) := by linarith
      have h2 : ¬ (G_mag (if s then blur img else img).val i j < 0) := by linarith
      rw [if_neg h1, if_neg h2]
    · rw [prewitt_val_of_not_interior img t s blur h,
        prewitt_val_of_not_interior img 0 s blur h]

/-- Witness for the amended C2 at the concrete grid `tg`, threshold `-1`. -/
theorem C2_amended_witness :
    (-1:ℝ) < 0 ∧ prewitt_operator tg (-1) false id = prewitt_operator tg 0 false id :=
  ⟨by norm_num, C2_negative_threshold_not_rejected tg id false (-1) (by norm_num)⟩

/-- C3: for every grid, every threshold `t ≥ 0` and both smoothing settings
(with an arbitrary external blur), every border cell of the output — row
`0`, row `rows-1`, column `0`, column `cols-1` — is exactly `0`. -/
theorem C3_border_zero (img : Grid) (t : ℝ) (s : Bool) (blur : Grid → Grid) (i j : ℕ)
    (ht : 0 ≤ t)
    (hb : i = 0 ∨ i = img.rows - 1 ∨ j = 0 ∨ j = img.cols - 1) :
    (prewitt_operator img t s blur).val i j = 0 := by
  apply prewitt_val_of_not_interior
  rcases hb with h | h | h | h <;> (intro hint; rcases hint with ⟨h1, h2, h3, h4⟩; omega)

/-- Witness for C3 at the concrete grid `tg`, threshold `0`, smoothing on,
border pixel `(0,1)`. -/
theorem C3_witness :
    (0:ℝ) ≤ 0 ∧ ((0:ℕ) = 0 ∨ 0 = tg.rows - 1 ∨ (1:ℕ) = 0 ∨ 1 = tg.cols - 1) ∧
    (prewitt_operator tg 0 true id).val 0 1 = 0 :=
  ⟨le_refl 0, Or.inl rfl, C3_border_zero tg 0 true id 0 1 (le_refl 0) (Or.inl rfl)⟩

/-- C4: every grid smaller than 3 in either dimension yields, for every
threshold `t ≥ 0` and both smoothing settings, the all-zero grid of the
same degenerate dimensions (the pixel loop's ranges are empty); the
embedded function is total, so no error is raised. -/
theorem C4_degenerate_all_zero (img : Grid) (t : ℝ) (s : Bool) (blur : Grid → Grid)
    (ht : 0 ≤ t) (hsmall : img.rows < 3 ∨ img.cols < 3) :
    prewitt_operator img t s blur = ⟨img.rows, img.cols, fun _ _ => 0⟩ := by
  ext i j
  · rfl
  · rfl
  · show (prewitt_operator img t s blur).val i j = 0
    apply prewitt_val_of_not_interior
    intro hint
    rcases hint with ⟨h1, h2, h3, h4⟩
    omega

/-- Witness for C4 at the concrete 2×2 grid `g22`, threshold `40`,
smoothing on. -/
theorem C4_witness :
    (0:ℝ) ≤ 40 ∧ (g22.rows < 3 ∨ g22.cols < 3) ∧
    prewitt_operator g22 40 true id = ⟨g22.rows, g22.cols, fun _ _ => 0⟩ :=
  ⟨by norm_num, Or.inl (by norm_num [g22]),
   C4_degenerate_all_zero g22 40 true id (by norm_num) (Or.inl (by norm_num [g22]))⟩

/-- Concrete evaluation used to discharge C5's hypothesis: at threshold `7`
the interior pixel of `tg` (magnitude `5 < 7`) is zeroed. -/
lemma tg_val_threshold7 : (prewitt_operator tg 7 false id).val 1 1 = 0 := by
  rw [prewitt_val_of_interior tg 7 false id (by decide)]
  simp only [Bool.false_eq_true, if_false]
  rw [show tg.val = tgVal from rfl, tg_G_mag]
  rw [if_pos (by norm_num : (5:ℝ) < 7)]

/-- C5: threshold suppression is monotone — for a fixed input and smoothing
setting, with `t1 ≤ t2`, every pixel zeroed at threshold `t1` is also
zeroed at threshold `t2`. -/
theorem C5_threshold_monotone (img : Grid) (s : Bool) (blur : Grid → Grid) (t1 t2 : ℝ)
    (h12 : t1 ≤ t2) (i j : ℕ)
    (hz : (prewitt_operator img t1 s blur).val i j = 0) :
    (prewitt_operator img t2 s blur).val i j = 0 := by
  by_cases h : interior img.rows img.cols i j
  · rw [prewitt_val_of_interior img t2 s blur h]
    rw [prewitt_val_of_interior img t1 s blur h] at hz
    by_cases hlt : G_mag (if s then blur img else img).val i j < t1
    · rw [if_pos (lt_of_lt_of_le hlt h12)]
    · rw [if_neg hlt] at hz
      by_cases hlt2 : G_mag (if s then blur img else img).val i j < t2
      · rw [if_pos hlt2]
      · rw [if_neg hlt2]; exact hz
  · exact prewitt_val_of_not_interior img t2 s blur h

/-- Witness for C5 at the concrete grid `tg`, thresholds `7 ≤ 8`,
pixel `(1,1)` (zeroed at `7`, hence zeroed at `8`). -/
theorem C5_witness :
    (7:ℝ) ≤ 8 ∧ (prewitt_operator tg 7 false id).val 1 1 = 0 ∧
    (prewitt_operator tg 8 false id).val 1 1 = 0 :=
  ⟨by norm_num, tg_val_threshold7,
   C5_threshold_monotone tg false id 7 8 (by norm_num) 1 1 tg_val_threshold7⟩

/-- C6: the threshold comparison is strict — at every loop-visited pixel
the stored value is `Gmag` zeroed exactly when `Gmag < t` (for nonzero
magnitudes, the output is `0` iff `Gmag < t`); a pixel with `Gmag = t` is
kept unchanged, and threshold `0` performs no suppression. -/
theorem C6_strict_threshold_comparison (img : Grid) (blur : Grid → Grid) (s : Bool)
    (t : ℝ) (i j : ℕ) (h : interior img.rows img.cols i j) :
    ((prewitt_operator img t s blur).val i j =
       if G_mag (if s then blur img else img).val i j < t then 0
       else G_mag (if s then blur img else img).val i j) ∧
    (G_mag (if s then blur img else img).val i j ≠ 0 →
       ((prewitt_operator img t s blur).val i j = 0 ↔
          G_mag (if s then blur img else img).val i j < t)) ∧
    (G_mag (if s then blur img else img).val i j = t →
       (prewitt_operator img t s blur).val i j =
         G_mag (if s then blur img else img).val i j) ∧
    (t = 0 →
       (prewitt_operator img t s blur).val i j =
         G_mag (if s then blur img else img).val i j) := by
  refine ⟨prewitt_val_of_interior img t s blur h, ?_, ?_, ?_⟩
  · intro hne
    rw [prewitt_val_of_interior img t s blur h]
    constructor
    · intro h0
      by_cases hlt : G_mag (if s then blur img else img).val i j < t
      · exact hlt
      · rw [if_neg hlt] at h0
        exact absurd h0 hne
    · intro hlt
      rw [if_pos hlt]
  · intro heq
    rw [prewitt_val_of_interior img t s blur h, if_neg (by rw [heq]; exact lt_irrefl t)]
  · intro ht0
    subst ht0
    rw [prewitt_val_of_interior img 0 s blur h,
      if_neg (not_lt.mpr (G_mag_nonneg (if s then blur img else img).val i j))]

/-- Witness for C6 at the concrete grid `tg`, threshold `5`, pixel `(1,1)`
(whose magnitude is exactly `5`). -/
theorem C6_witness :
    interior tg.rows tg.cols 1 1 ∧
    (((prewitt_operator tg 5 false id).val 1 1 =
        if G_mag (if false then id tg else tg).val 1 1 < 5 then 0
        else G_mag (if false then id tg else tg).val 1 1) ∧
     (G_mag (if false then id tg else tg).val 1 1 ≠ 0 →
        ((prewitt_operator tg 5 false id).val 1 1 = 0 ↔
           G_mag (if false then id tg else tg).val 1 1 < 5)) ∧
     (G_mag (if false then id tg else tg).val 1 1 = 5 →
        (prewitt_operator tg 5 false id).val 1 1 =
          G_mag (if false then id tg else tg).val 1 1) ∧
     ((5:ℝ) = 0 →
        (prewitt_operator tg 5 false id).val 1 1 =
          G_mag (if false then id tg else tg).val 1 1)) :=
  ⟨by decide, C6_strict_threshold_comparison tg id false 5 1 1 (by decide)⟩

/-- C7: the output grid has exactly the input's number of rows and columns,
for every threshold, smoothing setting and external blur. -/
theorem C7_output_dimensions (img : Grid) (t : ℝ) (s : Bool) (blur : Grid → Grid) :
    (prewitt_operator img t s blur).rows = img.rows ∧
    (prewitt_operator img t s blur).cols = img.cols :=
  ⟨rfl, rfl⟩

/-- C8: on a uniform input (all samples one constant `c`), `G_x` and `G_y`
vanish at every pixel, and for every threshold `t ≥ 0` the output is the
all-zero grid; when smoothing is on, the external Gaussian blur is assumed
to map the constant image to itself (its weights are normalized). -/
theorem C8_uniform_input_all_zero (rows cols : ℕ) (c t : ℝ) (s : Bool) (blur : Grid → Grid)
    (ht : 0 ≤ t)
    (hblur : s = true → blur ⟨rows, cols, fun _ _ => c⟩ = ⟨rows, cols, fun _ _ => c⟩) :
    (∀ i j, G_x (fun _ _ => c) i j = 0 ∧ G_y (fun _ _ => c) i j = 0) ∧
    prewitt_operator ⟨rows, cols, fun _ _ => c⟩ t s blur = ⟨rows, cols, fun _ _ => 0⟩ := by
  refine ⟨fun i j => ⟨G_x_const c i j, G_y_const c i j⟩, ?_⟩
  have hin : (if s then blur ⟨rows, cols, fun _ _ => c⟩ else ⟨rows, cols, fun _ _ => c⟩)
      = (⟨rows, cols, fun _ _ => c⟩ : Grid) := by
    cases s
    · rfl
    · exact hblur rfl
  have hmag : ∀ i j : ℕ, G_mag (fun _ _ => c) i j = 0 := by
    intro i j
    rw [G_mag, G_x_const, G_y_const]
    norm_num
  ext i j
  · rfl
  · rfl
  · show (prewitt_operator ⟨rows, cols, fun _ _ => c⟩ t s blur).val i j = 0
    by_cases h : interior rows cols i j
    · rw [prewitt_val_of_interior _ t s blur h, hin]
      rw [show (⟨rows, cols, fun _ _ => c⟩ : Grid).val = (fun _ _ => c) from rfl, hmag i j]
      by_cases h0 : (0:ℝ) < t
      · rw [if_pos h0]
      · rw [if_neg h0]
    · exact prewitt_val_of_not_interior _ t s blur h

/-- Witness for C8 with a 3×3 grid of constant value `9`, threshold `40`,
smoothing on, identity blur. -/
theorem C8_witness :
    (0:ℝ) ≤ 40 ∧
    (∀ i j, G_x (fun _ _ => (9:ℝ)) i j = 0 ∧ G_y (fun _ _ => (9:ℝ)) i j = 0) ∧
    prewitt_operator ⟨3, 3, fun _ _ => (9:ℝ)⟩ 40 true id = ⟨3, 3, fun _ _ => 0⟩ :=
  ⟨by norm_num,
   (C8_uniform_input_all_zero 3 3 9 40 true id (by norm_num) (fun _ => rfl)).1,
   (C8_uniform_input_all_zero 3 3 9 40 true id (by norm_num) (fun _ => rfl)).2⟩

/-- C9: the source multiplies kernel entry `(u,v)` by the transposed
neighborhood sample `img[i-1+v, j-1+u]`; since `P_x` transposed is `P_y`,
the accumulated `G_x` equals the row-major convolution with `Ky` and `G_y`
that with `Kx` (the two components are swapped), and the magnitude equals
the magnitude of the row-major convolutions. -/
theorem C9_transposed_neighborhood (img : ℕ → ℕ → ℝ) (i j : ℕ) (hi : 1 ≤ i) (hj : 1 ≤ j) :
    G_x img i j = transConv prewitt_x img i j ∧
    G_y img i j = transConv prewitt_y img i j ∧
    (∀ u v, u < 3 → v < 3 → prewitt_x u v = prewitt_y v u) ∧
    G_x img i j = specConv prewitt_y img i j ∧
    G_y img i j = specConv prewitt_x img i j ∧
    G_mag img i j =
      Real.sqrt (specConv prewitt_x img i j ^ 2 + specConv prewitt_y img i j ^ 2) := by
  refine ⟨?_, ?_, ?_, G_x_eq_specConv_y img i j hi hj, G_y_eq_specConv_x img i j hi hj,
    G_mag_eq_spec img i j hi hj⟩
  · obtain ⟨a, rfl⟩ : ∃ a, i = a + 1 := ⟨i - 1, by omega⟩
    obtain ⟨b, rfl⟩ : ∃ b, j = b + 1 := ⟨j - 1, by omega⟩
    simp only [G_x, transConv, Finset.sum_range_succ, Finset.sum_range_zero,
      Nat.add_sub_cancel, prewitt_x]
    norm_num
    ring_nf
  · obtain ⟨a, rfl⟩ : ∃ a, i = a + 1 := ⟨i - 1, by omega⟩
    obtain ⟨b, rfl⟩ : ∃ b, j = b + 1 := ⟨j - 1, by omega⟩
    simp only [G_y, transConv, Finset.sum_range_succ, Finset.sum_range_zero,
      Nat.add_sub_cancel, prewitt_y]
    norm_num
    ring_nf
  · intro u v hu hv
    interval_cases u <;> interval_cases v <;> rfl

/-- Witness for C9 at the concrete image `tgVal`, pixel `(1,1)`. -/
theorem C9_witness :
    1 ≤ 1 ∧ 1 ≤ 1 ∧
    (G_x tgVal 1 1 = transConv prewitt_x tgVal 1 1 ∧
     G_y tgVal 1 1 = transConv prewitt_y tgVal 1 1 ∧
     (∀ u v, u < 3 → v < 3 → prewitt_x u v = prewitt_y v u) ∧
     G_x tgVal 1 1 = specConv prewitt_y tgVal 1 1 ∧
     G_y tgVal 1 1 = specConv prewitt_x tgVal 1 1 ∧
     G_mag tgVal 1 1 =
       Real.sqrt (specConv prewitt_x tgVal 1 1 ^ 2 + specConv prewitt_y tgVal 1 1 ^ 2)) :=
  ⟨le_refl 1, le_refl 1, C9_transposed_neighborhood tgVal 1 1 (le_refl 1) (le_refl 1)⟩

/-- C10: the call never mutates the caller's array — in the state-passing
embedding the caller's array after the call is the original; the returned
grid is exactly `prewitt_operator`'s result; and the call is deterministic:
equal inputs and configurations give equal results. -/
theorem C10_no_mutation_deterministic (A : Grid) (t : ℝ) (s : Bool) (blur : Grid → Grid) :
    (prewitt_operator_call A t s blur).2 = A ∧
    (prewitt_operator_call A t s blur).1 = prewitt_operator A t s blur ∧
    ∀ (A2 : Grid) (t2 : ℝ) (s2 : Bool) (blur2 : Grid → Grid),
      A = A2 → t = t2 → s = s2 → blur = blur2 →
      prewitt_operator_call A t s blur = prewitt_operator_call A2 t2 s2 blur2 := by
  refine ⟨rfl, rfl, ?_⟩
  rintro A2 t2 s2 blur2 rfl rfl rfl rfl
  rfl

/-- Witness for C10 at the concrete grid `tg`, threshold `40`, smoothing on. -/
theorem C10_witness :
    (prewitt_operator_call tg 40 true id).2 = tg ∧
    (prewitt_operator_call tg 40 true id).1 = prewitt_operator tg 40 true id ∧
    prewitt_operator_call tg 40 true id = prewitt_operator_call tg 40 true id :=
  ⟨(C10_no_mutation_deterministic tg 40 true id).1,
   (C10_no_mutation_deterministic tg 40 true id).2.1,
   (C10_no_mutation_deterministic tg 40 true id).2.2 tg 40 true id rfl rfl rfl rfl⟩

end Prewitt
